import Mathlib

/-!
# Verification of the single-header SVG library (`src/svg.hpp`)

Shallow embedding of the C++ header `svg.hpp` into Lean 4.

Modelling conventions:

* `std::map<std::string, std::string>` (the attribute map) is modelled as a
  `List (String × String)` kept sorted by key; `mapInsert` models
  `map::operator[]` assignment (insert-or-overwrite at the sorted position,
  which matches `std::map` iteration order), `attrLookup` models `map::find`.
* C++ `float`/`double` arithmetic in the text-producing code paths is modelled
  by `ℚ` (every concrete value appearing in a theorem below is exactly
  representable in binary floating point, so rational arithmetic agrees with
  the IEEE computation), and the real-valued geometry of `Line` (which uses
  `std::sqrt`) is modelled over `ℝ`.
* `std::to_string` on integers is `toString : Int → String`; on `float` and
  `double` it is `fts` below (sprintf "%f": sign, integer digits, '.', exactly
  six fraction digits).  `std::stof` is `stof` below, covering the decimal
  forms this library produces (it returns `none` where the C++ call throws).
* Fallible calls (`std::stof` on a non-numeric string) are threaded through
  `Except Unit`.
-/

namespace SVGModel

/-- Decimal digit string of the value, `std::to_string` for `int`. -/
def intStr (i : Int) : String := toString i

/-- `std::to_string` on `float`/`double`: the `sprintf "%f"` format, i.e. the
value rounded to six fraction digits, always printing six fraction digits.
(The C++ call first rounds the decimal literal to the nearest `float`; all
concrete values used below are exactly representable, so no discrepancy
arises.  The scaled value is rounded half-up via an integer floor division,
`⌊q·10⁶ + 1/2⌋`; printf rounding can differ only at exact half-ulp ties,
which do not occur below.) -/
def fts (q : ℚ) : String :=
  let m : Int := Int.fdiv (2 * q.num * 1000000 + q.den) (2 * q.den)
  let sgn : String := if m < 0 then "-" else ""
  let n : Nat := m.natAbs
  let frac : String := toString (n % 1000000)
  sgn ++ toString (n / 1000000) ++ "." ++
    String.mk (List.replicate (6 - frac.length) '0') ++ frac

/-- Numeric value of a list of decimal digit characters. -/
def digitsVal (l : List Char) : Nat :=
  l.foldl (fun a c => a * 10 + (c.toNat - 48)) 0

/-- `std::stof`, restricted to the plain decimal forms this library produces:
an optional minus sign, integer digits, optionally a point and fraction
digits.  `none` models the `std::invalid_argument` exception thrown on input
(such as the empty string) that starts with no digit.  (The C++ call rounds
the decimal value to the nearest `float`; all stored texts appearing in the
theorems below denote exactly representable values.) -/
def stof (s : String) : Option ℚ :=
  let cs := s.data
  let neg : Bool := cs.head? = some '-'
  let cs₁ := if neg then cs.tail else cs
  let ip := cs₁.takeWhile (fun c => c.isDigit)
  let rest := cs₁.dropWhile (fun c => c.isDigit)
  let sgn : Int := if neg then -1 else 1
  match rest with
  | '.' :: r =>
    let fp := r.takeWhile (fun c => c.isDigit)
    if ip.isEmpty ∧ fp.isEmpty then none
    else
      some (mkRat (sgn * (digitsVal ip * 10 ^ fp.length + digitsVal fp))
        (10 ^ fp.length))
  | _ =>
    if ip.isEmpty then none
    else some (mkRat (sgn * digitsVal ip) 1)

/-- Byte-lexicographic order on strings, `std::less<std::string>`
(all keys used by the library are ASCII, where Lean characters and C++
bytes coincide). -/
def charListLt : List Char → List Char → Bool
  | [], [] => false
  | [], _ :: _ => true
  | _ :: _, [] => false
  | c :: cs, d :: ds =>
    if c.toNat < d.toNat then true
    else if d.toNat < c.toNat then false
    else charListLt cs ds

def strLt (a b : String) : Bool := charListLt a.data b.data

/-- `map::operator[] = v`: insert or overwrite, keeping the list sorted by
key (the iteration order of `std::map`). -/
def mapInsert (k v : String) : List (String × String) → List (String × String)
  | [] => [(k, v)]
  | (k', v') :: rest =>
    if strLt k k' then (k, v) :: (k', v') :: rest
    else if k = k' then (k, v) :: rest
    else (k', v') :: mapInsert k v rest

/-- `map::find` (as an `Option`al value). -/
def attrLookup (k : String) : List (String × String) → Option String
  | [] => none
  | (k', v) :: rest => if k = k' then some v else attrLookup k rest

/-- An `SVG::Element` tree.  The virtual `tag()` of each concrete subclass is
stored as data (`"svg"`, `"path"`, `"text"`, `"g"`, `"line"`, `"rect"`,
`"circle"`); `attr`, `content` and `children` are the data members of
`Element`.  `children` holds the pointed-to values of the
`vector<shared_ptr<Element>>` (the heap model used for the aliasing claim is
separate, below). -/
inductive Element where
  | mk (tag : String) (attr : List (String × String))
       (content : String) (children : List Element)

def Element.tag : Element → String
  | .mk t _ _ _ => t

def Element.attr : Element → List (String × String)
  | .mk _ a _ _ => a

def Element.content : Element → String
  | .mk _ _ c _ => c

def Element.children : Element → List Element
  | .mk _ _ _ ch => ch

/-- `std::string(indent_level, '\t')`. -/
def indentStr (n : Nat) : String := String.mk (List.replicate n '\t')

/-- The `to_string_attrib` macro loop, threading the stored attribute list
through to expose any mutation.  Each iteration executes
`ret += " " + it->first + "=" + "\"" + it->second += "\"";`
in which the trailing `+= "\""` applies to the *temporary* string built by
the `+` chain (compound assignment binds less tightly than `+`), so the
stored value `it->second` is read but not modified: the iteration emits
` key="value"` and stores the pair back unchanged. -/
def attrLoopSt (acc : String) : List (String × String) → String × List (String × String)
  | [] => (acc, [])
  | (k, v) :: rest =>
    ((attrLoopSt (acc ++ ((" " ++ k ++ "=" ++ "\"" ++ v) ++ "\"")) rest).1,
     (k, v) :: (attrLoopSt (acc ++ ((" " ++ k ++ "=" ++ "\"" ++ v) ++ "\"")) rest).2)

mutual

/-- `Element::to_string(indent_level)` (with the `Text::to_string` override
selected when the node's tag is `"text"`), threading the node state through
the call so that non-mutation is a provable statement rather than an
assumption.  Mirrors the source: open tag, attribute loop, then either
` />` for a childless node, or `">\n"`, the serialized children each followed
by a newline, and the closing tag; the `Text` override emits
`">" + content + "</text>"` and ignores children. -/
def to_string_st (ind : Nat) : Element → String × Element
  | .mk tg a c ch =>
    if tg = "text" then
      ((attrLoopSt (indentStr ind ++ "<" ++ "text") a).1 ++ ">" ++ c ++ "</text>",
       .mk tg (attrLoopSt (indentStr ind ++ "<" ++ "text") a).2 c ch)
    else
      if ch.isEmpty then
        ((attrLoopSt (indentStr ind ++ "<" ++ tg) a).1 ++ " />",
         .mk tg (attrLoopSt (indentStr ind ++ "<" ++ tg) a).2 c ch)
      else
        ((attrLoopSt (indentStr ind ++ "<" ++ tg) a).1 ++ ">\n"
           ++ (childrenSt (ind + 1) ch).1 ++ indentStr ind ++ "</" ++ tg ++ ">",
         .mk tg (attrLoopSt (indentStr ind ++ "<" ++ tg) a).2 c
           (childrenSt (ind + 1) ch).2)

/-- The child loop of `Element::to_string`: each child contributes its own
serialization followed by `"\n"`. -/
def childrenSt (ind : Nat) : List Element → String × List Element
  | [] => ("", [])
  | c :: rest =>
    ((to_string_st ind c).1 ++ "\n" ++ (childrenSt ind rest).1,
     (to_string_st ind c).2 :: (childrenSt ind rest).2)

end

/-- Custom induction principle for `Element` (nested recursion through
`List`). -/
def Element.inductionOn {P : Element → Prop} (e : Element)
    (h : ∀ t a c ch, (∀ x ∈ ch, P x) → P (.mk t a c ch)) : P e :=
  match e with
  | .mk t a c ch => h t a c ch (fun x _ => Element.inductionOn x h)
termination_by sizeOf e
decreasing_by
  rename_i hx
  have := List.sizeOf_lt_of_mem hx
  simp only [Element.mk.sizeOf_spec]
  omega

theorem attrLoopSt_snd (l : List (String × String)) :
    ∀ acc, (attrLoopSt acc l).2 = l := by
  induction l with
  | nil => intro acc; simp [attrLoopSt]
  | cons p rest ih =>
    intro acc
    obtain ⟨k, v⟩ := p
    simp [attrLoopSt, ih]

theorem childrenSt_snd (l : List Element)
    (hl : ∀ x ∈ l, ∀ i, (to_string_st i x).2 = x) :
    ∀ i, (childrenSt i l).2 = l := by
  induction l with
  | nil => intro i; simp [childrenSt]
  | cons x rest ih =>
    intro i
    simp only [childrenSt]
    rw [hl x (by simp), ih (fun y hy => hl y (by simp [hy]))]

theorem to_string_st_snd (e : Element) : ∀ ind, (to_string_st ind e).2 = e := by
  induction e using Element.inductionOn with
  | h t a c ch ih =>
    intro ind
    simp only [to_string_st]
    by_cases ht : t = "text"
    · simp [ht, attrLoopSt_snd]
    · by_cases hemp : ch.isEmpty
      · simp [ht, hemp, attrLoopSt_snd]
      · simp [ht, hemp, attrLoopSt_snd, childrenSt_snd ch ih]

/-- C1: serializing the same unmodified tree twice yields byte-identical
output; serialization returns the tree unchanged (it does not mutate any
attribute value), so the second call observes exactly the state the first
call observed. -/
theorem serialize_twice_identical (e : Element) (ind : Nat) :
    (to_string_st ind e).2 = e ∧
    (to_string_st ind (to_string_st ind e).2).1 = (to_string_st ind e).1 := by
  refine ⟨to_string_st_snd e ind, ?_⟩
  rw [to_string_st_snd e ind]


/-! ## `SVG::Path` (`start`, `line_to`, `to_origin`)

`Path` adds two private `float` members `x_start`, `y_start` to `Element`;
its mutators touch only the `"d"` attribute and those members, so the path
state is modelled by the attribute map together with the two members
(as exact rationals).  `start` and `line_to` are templates; the
instantiations exercised by the spec are `T = int` (decimal literals such as
`start(0, 0)`, rendered by `std::to_string(int)`) and `T = float` (the call
`to_origin` makes on the stored members, rendered with six fraction
digits). -/

structure PathSt where
  attr : List (String × String)
  x_start : ℚ
  y_start : ℚ

/-- `Path::start<int>(x, y)`: overwrites `attr["d"]` with a fresh
`M x y` command and records the start point (int-to-float conversion is
exact in the ranges used). -/
def PathSt.startI (p : PathSt) (x y : Int) : PathSt :=
  { attr := mapInsert "d" ("M " ++ intStr x ++ " " ++ intStr y) p.attr,
    x_start := (x : ℚ), y_start := (y : ℚ) }

/-- `Path::start<float>(x, y)`. -/
def PathSt.startF (p : PathSt) (x y : ℚ) : PathSt :=
  { attr := mapInsert "d" ("M " ++ fts x ++ " " ++ fts y) p.attr,
    x_start := x, y_start := y }

/-- `Path::line_to<int>(x, y)`: if no `"d"` attribute exists yet this is
`start(x, y)`; otherwise it appends `" L x y"` to the existing value. -/
def PathSt.line_toI (p : PathSt) (x y : Int) : PathSt :=
  match attrLookup "d" p.attr with
  | none => p.startI x y
  | some d =>
    { p with attr := mapInsert "d" (d ++ (" L " ++ intStr x ++ " " ++ intStr y)) p.attr }

/-- `Path::line_to<float>(x, y)`. -/
def PathSt.line_toF (p : PathSt) (x y : ℚ) : PathSt :=
  match attrLookup "d" p.attr with
  | none => p.startF x y
  | some d =>
    { p with attr := mapInsert "d" (d ++ (" L " ++ fts x ++ " " ++ fts y)) p.attr }

/-- `Path::to_origin()`: `line_to(x_start, y_start)` on the stored `float`
members. -/
def PathSt.to_origin (p : PathSt) : PathSt :=
  p.line_toF p.x_start p.y_start

theorem attrLookup_mapInsert_self (k v : String) (m : List (String × String)) :
    attrLookup k (mapInsert k v m) = some v := by
  induction m with
  | nil => simp [mapInsert, attrLookup]
  | cons p rest ih =>
    obtain ⟨k', v'⟩ := p
    by_cases hlt : strLt k k' = true
    · simp [mapInsert, hlt, attrLookup]
    · by_cases heq : k = k'
      · subst heq; simp [mapInsert, hlt, attrLookup]
      · simp [mapInsert, hlt, heq, attrLookup, ih]

theorem attrLookup_mapInsert_ne (k k' v : String) (m : List (String × String))
    (h : k' ≠ k) : attrLookup k' (mapInsert k v m) = attrLookup k' m := by
  induction m with
  | nil => simp [mapInsert, attrLookup, h]
  | cons p rest ih =>
    obtain ⟨k₁, v₁⟩ := p
    by_cases hlt : strLt k k₁ = true
    · simp [mapInsert, hlt, attrLookup, h]
    · by_cases heq : k = k₁
      · subst heq; simp [mapInsert, hlt, attrLookup, h]
      · by_cases heq' : k' = k₁
        · simp [mapInsert, hlt, heq, attrLookup, heq']
        · simp [mapInsert, hlt, heq, attrLookup, heq', ih]

/-- C2 (amended): once a `"d"` value exists, `line_to` (both the integer and
the float instantiation) and `to_origin` only append to it — the prior value
is an unchanged prefix of the new value.  (`start` is excluded: it
overwrites, see the counterexample.) -/
theorem path_append_preserves_d (p : PathSt) (d : String)
    (hd : attrLookup "d" p.attr = some d) (x y : Int) (qx qy : ℚ) :
    (∃ t, attrLookup "d" (p.line_toI x y).attr = some (d ++ t)) ∧
    (∃ t, attrLookup "d" (p.line_toF qx qy).attr = some (d ++ t)) ∧
    (∃ t, attrLookup "d" p.to_origin.attr = some (d ++ t)) := by
  refine ⟨⟨" L " ++ intStr x ++ " " ++ intStr y, ?_⟩,
          ⟨" L " ++ fts qx ++ " " ++ fts qy, ?_⟩,
          ⟨" L " ++ fts p.x_start ++ " " ++ fts p.y_start, ?_⟩⟩ <;>
    simp [PathSt.line_toI, PathSt.line_toF, PathSt.to_origin, hd,
      attrLookup_mapInsert_self]

/-- C2 witness: on a concrete path whose `"d"` attribute is `"M 0 0"`, each
of the three operations leaves the old value as a prefix. -/
theorem path_append_preserves_d_witness :
    (∃ t, attrLookup "d" ((PathSt.mk [("d", "M 0 0")] 0 0).line_toI 10 10).attr
        = some ("M 0 0" ++ t)) ∧
    (∃ t, attrLookup "d" ((PathSt.mk [("d", "M 0 0")] 0 0).line_toF 5 5).attr
        = some ("M 0 0" ++ t)) ∧
    (∃ t, attrLookup "d" (PathSt.mk [("d", "M 0 0")] 0 0).to_origin.attr
        = some ("M 0 0" ++ t)) :=
  path_append_preserves_d (PathSt.mk [("d", "M 0 0")] 0 0) "M 0 0" rfl 10 10 5 5

/-- C2 counterexample: `start` does *not* append.  On a path whose `"d"`
value is `"M 0 0"`, `start(1, 1)` replaces it with `"M 1 1"`, of which the
prior value is not a prefix. -/
theorem path_start_overwrites_d :
    attrLookup "d" ((PathSt.mk [("d", "M 0 0")] 0 0).startI 1 1).attr
      = some "M 1 1" ∧
    ¬ ∃ t, attrLookup "d" ((PathSt.mk [("d", "M 0 0")] 0 0).startI 1 1).attr
      = some ("M 0 0" ++ t) := by
  constructor
  · rfl
  · rintro ⟨t, ht⟩
    have h1 : attrLookup "d" ((PathSt.mk [("d", "M 0 0")] 0 0).startI 1 1).attr
        = some "M 1 1" := rfl
    rw [h1] at ht
    have h2 : ("M 0 0" ++ t).data = "M 1 1".data := by
      have := Option.some.inj ht
      rw [this]
    simp [String.data_append] at h2

/-- C3 counterexample: starting at `(0, 0)` (integer literals), then
`line_to(10, 10)`, then `close_path` (`to_origin`) does *not* produce
`"M 0 0 L 10 10 L 0 0"`: `to_origin` renders the stored `float` start point
through `std::to_string(float)`, which prints six fraction digits. -/
theorem path_example_d_value :
    attrLookup "d" (((PathSt.mk [] 0 0).startI 0 0).line_toI 10 10).to_origin.attr
      = some "M 0 0 L 10 10 L 0.000000 0.000000" ∧
    ("M 0 0 L 10 10 L 0.000000 0.000000" : String) ≠ "M 0 0 L 10 10 L 0 0" := by
  constructor
  · decide
  · decide

/-- C3 (amended): `line_to` on a path with no `"d"` attribute behaves as
`start` (both instantiations), and the sequence start `(0,0)`,
`line_to(10,10)`, `close_path` yields the `d` text
`"M 0 0 L 10 10 L 0.000000 0.000000"` — `close_path` appends a line command
back to the recorded start point, rendered with six fraction digits because
the start point is stored in `float` members. -/
theorem path_line_to_fresh_and_example (p : PathSt)
    (hp : attrLookup "d" p.attr = none) (x y : Int) (qx qy : ℚ) :
    p.line_toI x y = p.startI x y ∧
    p.line_toF qx qy = p.startF qx qy ∧
    attrLookup "d" (((PathSt.mk [] 0 0).startI 0 0).line_toI 10 10).to_origin.attr
      = some "M 0 0 L 10 10 L 0.000000 0.000000" := by
  refine ⟨?_, ?_, by decide⟩ <;> simp [PathSt.line_toI, PathSt.line_toF, hp]

/-- C3 witness: on a path with no `"d"` attribute, `line_to(10, 10)` equals
`start(10, 10)`. -/
theorem path_line_to_fresh_and_example_witness :
    (PathSt.mk [] 0 0).line_toI 10 10 = (PathSt.mk [] 0 0).startI 10 10 :=
  (path_line_to_fresh_and_example (PathSt.mk [] 0 0) rfl 10 10 0 0).1

/-! ## `Element::get_width` / `get_height` and `set_attr` -/

/-- The value of a `float`-returning accessor: either a number or the `NAN`
sentinel. -/
inductive FloatV where
  | num (q : ℚ)
  | nan
deriving DecidableEq

/-- `Element::get_width()`: if the `"width"` attribute is present
(`attr.find`), parse it with `std::stof` (whose exception is the `.error`
case); otherwise return `NAN` (the `.nan` sentinel).  The present-key
`attr["width"]` access returns the existing entry without inserting. -/
def get_widthE (e : Element) : Except Unit FloatV :=
  match attrLookup "width" e.attr with
  | some s => match stof s with
    | some q => .ok (.num q)
    | none => .error ()
  | none => .ok .nan

/-- `Element::get_height()`, identically with the `"height"` attribute. -/
def get_heightE (e : Element) : Except Unit FloatV :=
  match attrLookup "height" e.attr with
  | some s => match stof s with
    | some q => .ok (.num q)
    | none => .error ()
  | none => .ok .nan

/-- C6: on a generic node, `get_width` (resp. `get_height`) returns the
undefined sentinel — not an error — when the `"width"` (resp. `"height"`)
attribute was never set, and the numeric value parsed from the stored text
when it is present. -/
theorem get_dimension_missing_or_parsed (e : Element) :
    (attrLookup "width" e.attr = none → get_widthE e = .ok .nan) ∧
    (∀ s q, attrLookup "width" e.attr = some s → stof s = some q →
      get_widthE e = .ok (.num q)) ∧
    (attrLookup "height" e.attr = none → get_heightE e = .ok .nan) ∧
    (∀ s q, attrLookup "height" e.attr = some s → stof s = some q →
      get_heightE e = .ok (.num q)) := by
  refine ⟨fun h => by simp [get_widthE, h],
          fun s q hs hq => by simp [get_widthE, hs, hq],
          fun h => by simp [get_heightE, h],
          fun s q hs hq => by simp [get_heightE, hs, hq]⟩

/-- C6 witness: a node with no attributes yields the sentinel; a node whose
`"width"` attribute text is `"12.500000"` yields the parsed value `12.5`. -/
theorem get_dimension_missing_or_parsed_witness :
    get_widthE (.mk "svg" [] "" []) = .ok .nan ∧
    get_widthE (.mk "svg" [("width", "12.500000")] "" []) = .ok (.num (25/2)) := by
  have hq : (25 / 2 : ℚ) = mkRat 25 2 := by rw [Rat.mkRat_eq_div]; norm_num
  exact ⟨(get_dimension_missing_or_parsed (.mk "svg" [] "" [])).1 rfl,
    (get_dimension_missing_or_parsed (.mk "svg" [("width", "12.500000")] "" [])).2.1
      "12.500000" (25/2) rfl (by rw [hq]; decide)⟩

/-- `Element::set_attr(key, value)` for an arithmetic `value` (the primary
template): stores `std::to_string(value)` under `key` and returns `*this`
(modelled by returning the updated node). -/
def set_attrNum (e : Element) (k : String) (v : ℚ) : Element :=
  .mk e.tag (mapInsert k (fts v) e.attr) e.content e.children

/-- `Element::set_attr(key, value)` for string values (the `const char *` and
`std::string` specializations): stores the text unchanged. -/
def set_attrStr (e : Element) (k v : String) : Element :=
  .mk e.tag (mapInsert k v e.attr) e.content e.children

/-- C7: `set_attr` stores the numeric value as its decimal text under the
given key, overwriting any prior value; every other key and every other
node component is untouched (the C++ returns `*this`, i.e. the same node
with only this attribute changed); and the round trip holds:
`set_attr("width", 12.5)` then `get_width()` returns `12.5`. -/
theorem set_attr_stores_and_roundtrips (e : Element) (k : String) (v : ℚ) :
    attrLookup k (set_attrNum e k v).attr = some (fts v) ∧
    (∀ k', k' ≠ k → attrLookup k' (set_attrNum e k v).attr = attrLookup k' e.attr) ∧
    (set_attrNum e k v).tag = e.tag ∧
    (set_attrNum e k v).content = e.content ∧
    (set_attrNum e k v).children = e.children ∧
    get_widthE (set_attrNum e "width" (25/2)) = .ok (.num (25/2)) := by
  have hq : (25 / 2 : ℚ) = mkRat 25 2 := by rw [Rat.mkRat_eq_div]; norm_num
  obtain ⟨t, a, c, ch⟩ := e
  refine ⟨?_, fun k' hk' => ?_, rfl, rfl, rfl, ?_⟩
  · simp [set_attrNum, Element.attr, attrLookup_mapInsert_self]
  · simp [set_attrNum, Element.attr,
      attrLookup_mapInsert_ne k k' (fts v) a hk']
  · have h : attrLookup "width" (set_attrNum (Element.mk t a c ch) "width" (25/2)).attr
        = some (fts (25/2)) := by
      simp [set_attrNum, Element.attr, attrLookup_mapInsert_self]
    have hv : fts (25/2) = "12.500000" := by rw [hq]; decide
    have hs : stof "12.500000" = some (25/2) := by rw [hq]; decide
    simp [get_widthE, h, hv, hs]

/-- C7 witness: on a concrete node carrying an `"a"` attribute, setting
`"width" := 12.5` stores `"12.500000"`, leaves `"a"` alone, and
`get_width` reads back `12.5`. -/
theorem set_attr_stores_and_roundtrips_witness :
    attrLookup "width" (set_attrNum (.mk "g" [("a", "1")] "" []) "width" (25/2)).attr
      = some (fts (25/2)) ∧
    attrLookup "a" (set_attrNum (.mk "g" [("a", "1")] "" []) "width" (25/2)).attr
      = attrLookup "a" (Element.mk "g" [("a", "1")] "" []).attr ∧
    get_widthE (set_attrNum (.mk "g" [("a", "1")] "" []) "width" (25/2))
      = .ok (.num (25/2)) :=
  ⟨(set_attr_stores_and_roundtrips (.mk "g" [("a", "1")] "" []) "width" (25/2)).1,
   (set_attr_stores_and_roundtrips (.mk "g" [("a", "1")] "" []) "width" (25/2)).2.1
      "a" (by decide),
   (set_attr_stores_and_roundtrips (.mk "g" [("a", "1")] "" []) "width" (25/2)).2.2.2.2.2⟩

/-! ## `Element::add_child` ordering (value level) -/

/-- `Element::add_child(node)`: `children.push_back(make_shared<T>(node))` —
appends (a copy of) the node at the end of the children sequence.  (The
returned pointer and the copy semantics are treated in the heap model
below.) -/
def add_child (e : Element) (c : Element) : Element :=
  .mk e.tag e.attr e.content (e.children ++ [c])

/-- The variadic `add_child(node, args...)` unfolded for three arguments:
it recurses as `add_child(node); add_child(args...)`, i.e. left to right. -/
def add_child3 (e a b c : Element) : Element :=
  add_child (add_child (add_child e a) b) c

theorem childrenSt_fst_append (ind : Nat) (xs ys : List Element) :
    (childrenSt ind (xs ++ ys)).1 = (childrenSt ind xs).1 ++ (childrenSt ind ys).1 := by
  induction xs with
  | nil => simp [childrenSt]
  | cons x rest ih => simp [childrenSt, ih, String.append_assoc]

/-- C8 (amended): `add_child` appends in call order — the variadic call is
the left-to-right composition of single adds and the children list becomes
`old ++ [A, B, C]` — and for every parent that is not a text node the
serialization contains A's block, then B's, then C's, in that order
(text nodes serialize only their content and ignore children, see the
counterexample). -/
theorem add_child_order (p a b c : Element) (ind : Nat) (hp : p.tag ≠ "text") :
    add_child3 p a b c = add_child (add_child (add_child p a) b) c ∧
    (add_child3 p a b c).children = p.children ++ [a, b, c] ∧
    ∃ pre suf, (to_string_st ind (add_child3 p a b c)).1 =
      pre ++ (to_string_st (ind + 1) a).1 ++ "\n"
          ++ (to_string_st (ind + 1) b).1 ++ "\n"
          ++ (to_string_st (ind + 1) c).1 ++ "\n" ++ suf := by
  obtain ⟨t, at_, co, ch⟩ := p
  have ht : t ≠ "text" := hp
  refine ⟨rfl, by simp [add_child3, add_child, Element.children,
    Element.tag, Element.attr, Element.content, List.append_assoc], ?_⟩
  have hch : (Element.mk t at_ co ch |> fun e => add_child3 e a b c).children
      = ch ++ [a, b, c] := by
    simp [add_child3, add_child, Element.children, Element.tag, Element.attr,
      Element.content, List.append_assoc]
  refine ⟨(attrLoopSt (indentStr ind ++ "<" ++ t) at_).1 ++ ">\n"
            ++ (childrenSt (ind + 1) ch).1,
          indentStr ind ++ "</" ++ t ++ ">", ?_⟩
  have hne : ((ch ++ [a, b, c]).isEmpty) = false := by
    simp [List.isEmpty_eq_false_iff_exists_mem]
  have h3 : add_child3 (Element.mk t at_ co ch) a b c
      = Element.mk t at_ co (ch ++ [a, b, c]) := by
    simp [add_child3, add_child, Element.children, Element.tag, Element.attr,
      Element.content, List.append_assoc]
  rw [h3]
  simp only [to_string_st, ht, if_false, hne, Bool.false_eq_true,
    childrenSt_fst_append]
  simp [childrenSt, String.append_assoc]

/-- C8 witness: a concrete `svg` parent with three `g` children added in one
(unfolded) variadic call serializes their blocks in call order. -/
theorem add_child_order_witness :
    (Element.mk "svg" [] "" [] |>.tag) ≠ "text" ∧
    (add_child3 (.mk "svg" [] "" []) (.mk "g" [] "" []) (.mk "rect" [] "" [])
      (.mk "circle" [] "" [])).children
      = [] ++ [.mk "g" [] "" [], .mk "rect" [] "" [], .mk "circle" [] "" []] :=
  ⟨by decide,
   (add_child_order (.mk "svg" [] "" []) (.mk "g" [] "" []) (.mk "rect" [] "" [])
      (.mk "circle" [] "" []) 0 (by decide)).2.1⟩

/-- C8 counterexample: a `text` parent.  `Text::to_string` ignores children,
so after adding children A, B, C their blocks do not appear in the parent's
serialization at all (the output contains no tab character, while each
child block starts with the indent `"\t"`). -/
theorem add_child_order_text_parent :
    (to_string_st 0 (add_child3 (.mk "text" [] "hi" [])
        (.mk "g" [] "" []) (.mk "rect" [] "" []) (.mk "circle" [] "" []))).1
      = "<text>hi</text>" ∧
    ¬ ∃ pre suf, (to_string_st 0 (add_child3 (.mk "text" [] "hi" [])
        (.mk "g" [] "" []) (.mk "rect" [] "" []) (.mk "circle" [] "" []))).1 =
      pre ++ (to_string_st 1 (Element.mk "g" [] "" [])).1 ++ "\n"
          ++ (to_string_st 1 (Element.mk "rect" [] "" [])).1 ++ "\n"
          ++ (to_string_st 1 (Element.mk "circle" [] "" [])).1 ++ "\n" ++ suf := by
  constructor
  · decide
  · rintro ⟨pre, suf, hdecomp⟩
    have hg : (to_string_st 1 (Element.mk "g" [] "" [])).1 = "\t<g />" := by decide
    have hout : (to_string_st 0 (add_child3 (.mk "text" [] "hi" [])
        (.mk "g" [] "" []) (.mk "rect" [] "" []) (.mk "circle" [] "" []))).1
        = "<text>hi</text>" := by decide
    rw [hout, hg] at hdecomp
    have hmem : '\t' ∈ ("<text>hi</text>" : String).data := by
      rw [hdecomp]
      simp [String.data_append]
    revert hmem
    decide

/-! ## `SVG::Line` geometry (`get_width`, `get_height`, `get_length`,
`get_slope`, `along`)

The numeric core of the `Line` accessors on the parsed endpoint values
(`float` arithmetic modelled over `ℝ`; `std::sqrt` is `Real.sqrt`; all
concrete endpoint and fraction values in the theorems below are exactly
representable, and every intermediate IEEE result for them is exact).
Parameter order is `x1 y1 x2 y2`, the geometric endpoints
`(x1,y1)`-`(x2,y2)`. -/

/-- `Line::get_slope()`: `(y2 - y1) / (x2 - x1)`. -/
noncomputable def get_slopeR (x1 y1 x2 y2 : ℝ) : ℝ := (y2 - y1) / (x2 - x1)

/-- `Line::get_width()`: `abs(x2 - x1)`. -/
noncomputable def get_widthR (x1 y1 x2 y2 : ℝ) : ℝ := |x2 - x1|

/-- `Line::get_height()`: `abs(y2 - y1)`. -/
noncomputable def get_heightR (x1 y1 x2 y2 : ℝ) : ℝ := |y2 - y1|

/-- `Line::get_length()`: `sqrt(pow(get_width(), 2) + pow(get_height(), 2))`. -/
noncomputable def get_lengthR (x1 y1 x2 y2 : ℝ) : ℝ :=
  Real.sqrt ((get_widthR x1 y1 x2 y2) ^ 2 + (get_heightR x1 y1 x2 y2) ^ 2)

open Classical in
/-- `Line::along(percent)`: the non-vertical branch computes
`discrim = sqrt(4·length²·(1/(1+slope²)))`, forms the two roots
`x_a = (2·x1 + discrim)/2` and `x_b = (2·x1 - discrim)/2`, keeps `x_a`
unless it lies strictly outside both endpoints (then `x_b`), and takes `y`
from the line equation; the vertical branch (`x1 == x2`) keeps `x = x1` and
moves `y` by `percent·length` downward when `y1 > y2`, upward otherwise. -/
noncomputable def alongR (x1 y1 x2 y2 percent : ℝ) : ℝ × ℝ :=
  if x1 ≠ x2 then
    let length := percent * get_lengthR x1 y1 x2 y2
    let discrim := Real.sqrt (4 * length ^ 2 * (1 / (1 + (get_slopeR x1 y1 x2 y2) ^ 2)))
    let x_a := (2 * x1 + discrim) / 2
    let x_b := (2 * x1 - discrim) / 2
    let x_pos := if (x_a > x1 ∧ x_a > x2) ∨ (x_a < x1 ∧ x_a < x2) then x_b else x_a
    (x_pos, get_slopeR x1 y1 x2 y2 * (x_pos - x1) + y1)
  else
    (x1, if y1 > y2 then y1 - percent * get_lengthR x1 y1 x2 y2
         else y1 + percent * get_lengthR x1 y1 x2 y2)

theorem get_lengthR_eq (x1 y1 x2 y2 : ℝ) :
    get_lengthR x1 y1 x2 y2 = Real.sqrt ((x2 - x1) ^ 2 + (y2 - y1) ^ 2) := by
  rw [get_lengthR, get_widthR, get_heightR, sq_abs, sq_abs]

theorem discrim_eq (x1 y1 x2 y2 f : ℝ) (hx : x1 ≠ x2) (h0 : 0 ≤ f) :
    Real.sqrt (4 * (f * get_lengthR x1 y1 x2 y2) ^ 2 *
        (1 / (1 + (get_slopeR x1 y1 x2 y2) ^ 2)))
      = 2 * f * |x2 - x1| := by
  have hw : x2 - x1 ≠ 0 := sub_ne_zero.mpr (Ne.symm hx)
  have hpos : (0 : ℝ) ≤ (x2 - x1) ^ 2 + (y2 - y1) ^ 2 := by positivity
  have hlen2 : (get_lengthR x1 y1 x2 y2) ^ 2 = (x2 - x1) ^ 2 + (y2 - y1) ^ 2 := by
    rw [get_lengthR_eq, Real.sq_sqrt hpos]
  have hsum : (x2 - x1) ^ 2 + (y2 - y1) ^ 2 ≠ 0 := by positivity
  have hinv : 1 / (1 + ((y2 - y1) / (x2 - x1)) ^ 2)
      = (x2 - x1) ^ 2 / ((x2 - x1) ^ 2 + (y2 - y1) ^ 2) := by
    field_simp
  have habs2 : (2 * f * |x2 - x1|) ^ 2 = 4 * f ^ 2 * (x2 - x1) ^ 2 := by
    rw [mul_pow, mul_pow, sq_abs]; ring
  have harg : 4 * (f * get_lengthR x1 y1 x2 y2) ^ 2 *
      (1 / (1 + (get_slopeR x1 y1 x2 y2) ^ 2)) = (2 * f * |x2 - x1|) ^ 2 := by
    rw [mul_pow, hlen2, get_slopeR, hinv, habs2]
    field_simp
    ring
  rw [harg, Real.sqrt_sq (by positivity)]

/-- Closed form of the non-vertical branch for fractions in `[0, 1]`: the
returned point is the linear interpolation of the endpoints at `f`. -/
theorem alongR_nonvert_eval (x1 y1 x2 y2 f : ℝ) (hx : x1 ≠ x2)
    (h0 : 0 ≤ f) (h1 : f ≤ 1) :
    alongR x1 y1 x2 y2 f =
      (x1 + f * (x2 - x1), get_slopeR x1 y1 x2 y2 * (f * (x2 - x1)) + y1) := by
  rw [alongR, if_pos hx]
  simp only
  rw [discrim_eq x1 y1 x2 y2 f hx h0]
  rcases lt_or_gt_of_ne (sub_ne_zero.mpr (Ne.symm hx)) with hneg | hpos
  · -- x2 - x1 < 0, i.e. x2 < x1 : |x2 - x1| = x1 - x2
    have habs : |x2 - x1| = -(x2 - x1) := abs_of_neg hneg
    rw [habs]
    rcases eq_or_lt_of_le h0 with hf0 | hf0
    · -- f = 0 : both roots collapse to x1 and the condition is false
      rw [← hf0]
      rw [if_neg (by rintro (⟨ha, _⟩ | ⟨ha, _⟩) <;> · revert ha; simp)]
      simp only [Prod.mk.injEq]
      constructor <;> ring
    · -- 0 < f : x_a lies strictly beyond x1 (and x2), so x_b is chosen
      rw [if_pos (Or.inl ⟨by nlinarith, by nlinarith⟩)]
      simp only [Prod.mk.injEq]
      constructor <;> ring
  · -- 0 < x2 - x1, i.e. x1 < x2 : |x2 - x1| = x2 - x1, x_a is kept
    have habs : |x2 - x1| = x2 - x1 := abs_of_pos hpos
    rw [habs]
    rw [if_neg ?cnd]
    case cnd =>
      rintro (⟨hgt1, hgt2⟩ | ⟨hlt1, hlt2⟩)
      · nlinarith
      · nlinarith
    simp only [Prod.mk.injEq]
    constructor <;> ring

theorem sqrt_hundred : Real.sqrt 100 = 10 := by
  rw [show (100 : ℝ) = 10 ^ 2 by norm_num]
  exact Real.sqrt_sq (by norm_num)

/-- C4 (amended): for a non-vertical segment and a fraction in `[0, 1]`,
`along` returns a point on the line through the endpoints at Euclidean
distance `fraction · length()` from `(x1, y1)`, whose `x` lies on the same
side of `x1` as `x2` (in fact between `x1` and `x2`), with `y` derived from
the line equation; and the segment `(0,0)-(10,0)` has `length() = 10`,
`width() = 10`, `height() = 0`, `along(0.5) = (5, 0)`.  (The restriction of
the fraction to `[0, 1]` is forced by the counterexample: at fraction `2` on
`(0,0)-(10,0)` the code returns a point on the opposite side of `x1` from
`x2`.) -/
theorem along_nonvertical_characterization (x1 y1 x2 y2 f : ℝ)
    (hx : x1 ≠ x2) (h0 : 0 ≤ f) (h1 : f ≤ 1) :
    Real.sqrt (((alongR x1 y1 x2 y2 f).1 - x1) ^ 2 +
        ((alongR x1 y1 x2 y2 f).2 - y1) ^ 2)
      = f * get_lengthR x1 y1 x2 y2 ∧
    (alongR x1 y1 x2 y2 f).2
      = get_slopeR x1 y1 x2 y2 * ((alongR x1 y1 x2 y2 f).1 - x1) + y1 ∧
    (x1 < x2 → x1 ≤ (alongR x1 y1 x2 y2 f).1 ∧ (alongR x1 y1 x2 y2 f).1 ≤ x2) ∧
    (x2 < x1 → x2 ≤ (alongR x1 y1 x2 y2 f).1 ∧ (alongR x1 y1 x2 y2 f).1 ≤ x1) ∧
    get_lengthR 0 0 10 0 = 10 ∧
    get_widthR 0 0 10 0 = 10 ∧
    get_heightR 0 0 10 0 = 0 ∧
    alongR 0 0 10 0 (1/2) = (5, 0) := by
  have hw : x2 - x1 ≠ 0 := sub_ne_zero.mpr (Ne.symm hx)
  rw [alongR_nonvert_eval x1 y1 x2 y2 f hx h0 h1]
  simp only
  have hs : get_slopeR x1 y1 x2 y2 * (f * (x2 - x1)) = f * (y2 - y1) := by
    rw [get_slopeR]; field_simp; ring
  have hlen0 : get_lengthR 0 0 10 0 = 10 := by
    rw [get_lengthR_eq]; norm_num [sqrt_hundred]
  refine ⟨?_, ?_, fun hlt => ⟨by nlinarith, by nlinarith⟩,
    fun hlt => ⟨by nlinarith, by nlinarith⟩, hlen0,
    by rw [get_widthR]; norm_num, by rw [get_heightR]; norm_num, ?_⟩
  · have hsum : (x1 + f * (x2 - x1) - x1) ^ 2 +
        (get_slopeR x1 y1 x2 y2 * (f * (x2 - x1)) + y1 - y1) ^ 2
        = f ^ 2 * ((x2 - x1) ^ 2 + (y2 - y1) ^ 2) := by
      rw [hs]; ring
    rw [hsum, get_lengthR_eq, Real.sqrt_mul (by positivity), Real.sqrt_sq h0]
  · ring
  · rw [alongR_nonvert_eval 0 0 10 0 (1/2) (by norm_num) (by norm_num) (by norm_num)]
    rw [get_slopeR]
    norm_num
/-- C4 witness: the characterization applied to the segment `(0,0)-(10,0)`
at fraction `0.5` gives the midpoint `(5, 0)`. -/
theorem along_nonvertical_characterization_witness :
    alongR 0 0 10 0 (1/2) = (5, 0) :=
  (along_nonvertical_characterization 0 0 10 0 (1/2) (by norm_num) (by norm_num)
    (by norm_num)).2.2.2.2.2.2.2

/-- C4 counterexample: on the segment `(0,0)-(10,0)` with fraction `2`,
`along` rejects the root `x_a = 20` (strictly outside both endpoints) and
returns `x = -20`, which lies on the opposite side of `x1 = 0` from
`x2 = 10` — so the claim's side-selection clause fails at this fraction. -/
theorem along_fraction_two_opposite_side :
    alongR 0 0 10 0 2 = (-20, 0) ∧ (0 : ℝ) < 10 ∧ (alongR 0 0 10 0 2).1 < 0 := by
  have hx : (0 : ℝ) ≠ 10 := by norm_num
  have hd := discrim_eq 0 0 10 0 2 hx (by norm_num)
  have heval : alongR 0 0 10 0 2 = (-20, 0) := by
    rw [alongR, if_pos hx]
    simp only
    rw [hd]
    rw [get_slopeR]
    norm_num
  exact ⟨heval, by norm_num, by rw [heval]; norm_num⟩

/-- C5: for a vertical segment (`x1 = x2`), `along` keeps `x` at `x1` and
moves `y` from `y1` by `fraction · length()` (with `length() = |y2 - y1|`)
toward `y2`: decreasing when `y1 > y2`, increasing otherwise; in particular
`along(0.25)` on `(3,10)-(3,0)` is `(3, 7.5)` and on `(3,0)-(3,10)` is
`(3, 2.5)`. -/
theorem along_vertical_characterization (x1 y1 x2 y2 f : ℝ) (hx : x1 = x2) :
    (alongR x1 y1 x2 y2 f).1 = x1 ∧
    get_lengthR x1 y1 x2 y2 = |y2 - y1| ∧
    (y1 > y2 → (alongR x1 y1 x2 y2 f).2 = y1 - f * |y2 - y1|) ∧
    (¬ y1 > y2 → (alongR x1 y1 x2 y2 f).2 = y1 + f * |y2 - y1|) ∧
    alongR 3 10 3 0 (1/4) = (3, 7.5) ∧
    alongR 3 0 3 10 (1/4) = (3, 2.5) := by
  subst hx
  have hnot : ¬ x1 ≠ x1 := by simp
  have hlen : get_lengthR x1 y1 x1 y2 = |y2 - y1| := by
    rw [get_lengthR_eq]
    simp [Real.sqrt_sq_eq_abs]
  have hlen3a : get_lengthR 3 10 3 0 = 10 := by
    rw [get_lengthR_eq]; norm_num [sqrt_hundred]
  have hlen3b : get_lengthR 3 0 3 10 = 10 := by
    rw [get_lengthR_eq]; norm_num [sqrt_hundred]
  refine ⟨?_, hlen, fun hgt => ?_, fun hle => ?_, ?_, ?_⟩
  · rw [alongR, if_neg hnot]
  · rw [alongR, if_neg hnot]; simp only [if_pos hgt, hlen]
  · rw [alongR, if_neg hnot]; simp only [if_neg hle, hlen]
  · rw [alongR, if_neg (by norm_num : ¬ (3 : ℝ) ≠ 3), hlen3a,
      if_pos (by norm_num : (10 : ℝ) > 0)]
    norm_num
  · rw [alongR, if_neg (by norm_num : ¬ (3 : ℝ) ≠ 3), hlen3b,
      if_neg (by norm_num : ¬ (0 : ℝ) > 10)]
    norm_num

/-- C5 witness: the vertical characterization applied to the downward
segment `(3,10)-(3,0)` at fraction `0.25` gives `(3, 7.5)`. -/
theorem along_vertical_characterization_witness :
    alongR 3 10 3 0 (1/4) = (3, 7.5) :=
  (along_vertical_characterization 3 10 3 0 (1/4) rfl).2.2.2.2.1

/-! ## `SVG::Line` reads as state transformers (mutation on read)

Each `Line` accessor reads endpoint attributes via `attr["x1"]` etc., i.e.
`std::map::operator[]`, which *inserts a default-constructed (empty) string*
when the key is absent; `std::stof` then throws on that empty string.  The
reads are therefore modelled as state transformers on the node.  Where a
C++ expression leaves the evaluation order of two reads unspecified
(`x2() - x1()`), the transcription fixes left-to-right order; under the
presence hypotheses of the theorem below every order gives the same result.
In `along`, each textual call site re-reads its attributes; the `&&`/`||`
short-circuiting can only *omit* some of these reads, so transcribing all of
them in textual order is faithful for the frame property at issue. -/

/-- `attr[k]` (`std::map::operator[]`): returns the stored text if present,
otherwise inserts the empty string under `k` and returns it. -/
def attrRef (k : String) (e : Element) : String × Element :=
  match attrLookup k e.attr with
  | some v => (v, e)
  | none => ("", .mk e.tag (mapInsert k "" e.attr) e.content e.children)

/-- `std::stof(attr[k])`: the body of the four endpoint accessors. -/
def parseAttr (k : String) (e : Element) : Except Unit ℚ × Element :=
  match stof (attrRef k e).1 with
  | some q => (.ok q, (attrRef k e).2)
  | none => (.error (), (attrRef k e).2)

/-- `Line::x1()`. -/
def x1St (e : Element) : Except Unit ℚ × Element := parseAttr "x1" e

/-- `Line::x2()`. -/
def x2St (e : Element) : Except Unit ℚ × Element := parseAttr "x2" e

/-- `Line::y1()`. -/
def y1St (e : Element) : Except Unit ℚ × Element := parseAttr "y1" e

/-- `Line::y2()`. -/
def y2St (e : Element) : Except Unit ℚ × Element := parseAttr "y2" e

/-- Sequencing of two stateful reads; an exception propagates and skips the
continuation. -/
def bindSt {α β : Type} (m : Element → Except Unit α × Element)
    (f : α → Element → Except Unit β × Element) (e : Element) :
    Except Unit β × Element :=
  match m e with
  | (.ok a, e') => f a e'
  | (.error u, e') => (.error u, e')

def pureSt {α : Type} (a : α) (e : Element) : Except Unit α × Element :=
  (.ok a, e)

/-- `Line::get_width()`: `abs(x2() - x1())`. -/
noncomputable def get_widthSt : Element → Except Unit ℝ × Element :=
  bindSt x2St fun a => bindSt x1St fun b => pureSt |(a : ℝ) - (b : ℝ)|

/-- `Line::get_height()`: `abs(y2() - y1())`. -/
noncomputable def get_heightSt : Element → Except Unit ℝ × Element :=
  bindSt y2St fun a => bindSt y1St fun b => pureSt |(a : ℝ) - (b : ℝ)|

/-- `Line::get_length()`: `sqrt(pow(get_width(), 2) + pow(get_height(), 2))`. -/
noncomputable def get_lengthSt : Element → Except Unit ℝ × Element :=
  bindSt get_widthSt fun w => bindSt get_heightSt fun h =>
    pureSt (Real.sqrt (w ^ 2 + h ^ 2))

/-- `Line::get_slope()`: `(y2() - y1()) / (x2() - x1())`. -/
noncomputable def get_slopeSt : Element → Except Unit ℝ × Element :=
  bindSt y2St fun a => bindSt y1St fun b =>
  bindSt x2St fun c => bindSt x1St fun d =>
    pureSt (((a : ℝ) - (b : ℝ)) / ((c : ℝ) - (d : ℝ)))

open Classical in
/-- `Line::along(percent)` with every textual attribute read threaded in
order: the branch condition reads `x1(), x2()`; the non-vertical branch then
reads `get_length()`, `get_slope()`, `x1()` (for `x_a`), `x1()` (for `x_b`),
`x1(), x2(), x1(), x2()` (the root-selection condition), `get_slope()`,
`x1()`, `y1()` (for `y_pos`); the vertical branch reads `x1()`, `y1(),
y2()` (its condition), then `y1()` and `get_length()`. -/
noncomputable def alongSt (percent : ℝ) : Element → Except Unit (ℝ × ℝ) × Element :=
  bindSt x1St fun c1 => bindSt x2St fun c2 =>
  if (c1 : ℝ) ≠ (c2 : ℝ) then
    bindSt get_lengthSt fun glen =>
    bindSt get_slopeSt fun slope =>
    bindSt x1St fun x1a =>
    bindSt x1St fun x1b =>
    bindSt x1St fun x1c => bindSt x2St fun x2c =>
    bindSt x1St fun x1d => bindSt x2St fun x2d =>
    bindSt get_slopeSt fun slope2 =>
    bindSt x1St fun x1e => bindSt y1St fun y1a =>
    let length := percent * glen
    let discrim := Real.sqrt (4 * length ^ 2 * (1 / (1 + slope ^ 2)))
    let x_a := (2 * (x1a : ℝ) + discrim) / 2
    let x_b := (2 * (x1b : ℝ) - discrim) / 2
    let x_pos := if (x_a > (x1c : ℝ) ∧ x_a > (x2c : ℝ)) ∨
                    (x_a < (x1d : ℝ) ∧ x_a < (x2d : ℝ)) then x_b else x_a
    pureSt (x_pos, slope2 * (x_pos - (x1e : ℝ)) + (y1a : ℝ))
  else
    bindSt x1St fun xv =>
    bindSt y1St fun ya => bindSt y2St fun yb =>
    if (ya : ℝ) > (yb : ℝ) then
      bindSt y1St fun yc => bindSt get_lengthSt fun glen =>
        pureSt ((xv : ℝ), (yc : ℝ) - percent * glen)
    else
      bindSt y1St fun yc => bindSt get_lengthSt fun glen =>
        pureSt ((xv : ℝ), (yc : ℝ) + percent * glen)

theorem bindSt_snd {α β : Type} (m : Element → Except Unit α × Element)
    (f : α → Element → Except Unit β × Element) (e : Element)
    (hm : (m e).2 = e) (hf : ∀ a, (f a e).2 = e) : (bindSt m f e).2 = e := by
  rw [bindSt]
  rcases hme : m e with ⟨r, e'⟩
  have he' : e' = e := by rw [← hm, hme]
  subst he'
  cases r with
  | ok a => exact hf a
  | error u => rfl

theorem parseAttr_present (k s : String) (e : Element)
    (h : attrLookup k e.attr = some s) :
    (parseAttr k e).2 = e ∧ (∀ q, stof s = some q → parseAttr k e = (.ok q, e)) := by
  constructor
  · rw [parseAttr, attrRef, h]
    rcases stof s with _ | q <;> rfl
  · intro q hq
    rw [parseAttr, attrRef, h]
    simp only [hq]

/-- C9 (amended): on a segment node that carries all four endpoint
attributes, none of the derived read accessors (`x1,x2,y1,y2`, `get_width`,
`get_height`, `get_length`, `get_slope`, `along`) changes the node: the
attribute map and all other node state are returned unchanged, and the four
raw reads return the parsed stored values.  (The claim's extension to a node
with an absent endpoint attribute fails: there the read *inserts* an empty
entry, see the counterexample.) -/
theorem line_reads_no_mutation (e : Element) (s1 s2 s3 s4 : String)
    (h1 : attrLookup "x1" e.attr = some s1)
    (h2 : attrLookup "x2" e.attr = some s2)
    (h3 : attrLookup "y1" e.attr = some s3)
    (h4 : attrLookup "y2" e.attr = some s4) :
    (x1St e).2 = e ∧ (x2St e).2 = e ∧ (y1St e).2 = e ∧ (y2St e).2 = e ∧
    (∀ q, stof s1 = some q → x1St e = (.ok q, e)) ∧
    (∀ q, stof s2 = some q → x2St e = (.ok q, e)) ∧
    (∀ q, stof s3 = some q → y1St e = (.ok q, e)) ∧
    (∀ q, stof s4 = some q → y2St e = (.ok q, e)) ∧
    (get_widthSt e).2 = e ∧ (get_heightSt e).2 = e ∧
    (get_lengthSt e).2 = e ∧ (get_slopeSt e).2 = e ∧
    ∀ p, (alongSt p e).2 = e := by
  have hx1 : (x1St e).2 = e := (parseAttr_present "x1" s1 e h1).1
  have hx2 : (x2St e).2 = e := (parseAttr_present "x2" s2 e h2).1
  have hy1 : (y1St e).2 = e := (parseAttr_present "y1" s3 e h3).1
  have hy2 : (y2St e).2 = e := (parseAttr_present "y2" s4 e h4).1
  have hw : (get_widthSt e).2 = e := by
    unfold get_widthSt
    apply bindSt_snd _ _ _ hx2
    intro a
    apply bindSt_snd _ _ _ hx1
    intro b
    rfl
  have hh : (get_heightSt e).2 = e := by
    unfold get_heightSt
    apply bindSt_snd _ _ _ hy2
    intro a
    apply bindSt_snd _ _ _ hy1
    intro b
    rfl
  have hlen : (get_lengthSt e).2 = e := by
    unfold get_lengthSt
    apply bindSt_snd _ _ _ hw
    intro w
    apply bindSt_snd _ _ _ hh
    intro h
    rfl
  have hslope : (get_slopeSt e).2 = e := by
    unfold get_slopeSt
    apply bindSt_snd _ _ _ hy2
    intro a
    apply bindSt_snd _ _ _ hy1
    intro b
    apply bindSt_snd _ _ _ hx2
    intro c
    apply bindSt_snd _ _ _ hx1
    intro d
    rfl
  refine ⟨hx1, hx2, hy1, hy2,
    (parseAttr_present "x1" s1 e h1).2, (parseAttr_present "x2" s2 e h2).2,
    (parseAttr_present "y1" s3 e h3).2, (parseAttr_present "y2" s4 e h4).2,
    hw, hh, hlen, hslope, ?_⟩
  intro p
  unfold alongSt
  apply bindSt_snd _ _ _ hx1
  intro c1
  apply bindSt_snd _ _ _ hx2
  intro c2
  by_cases hc : (c1 : ℝ) ≠ (c2 : ℝ)
  · rw [if_pos hc]
    apply bindSt_snd _ _ _ hlen
    intro glen
    apply bindSt_snd _ _ _ hslope
    intro slope
    apply bindSt_snd _ _ _ hx1
    intro x1a
    apply bindSt_snd _ _ _ hx1
    intro x1b
    apply bindSt_snd _ _ _ hx1
    intro x1c
    apply bindSt_snd _ _ _ hx2
    intro x2c
    apply bindSt_snd _ _ _ hx1
    intro x1d
    apply bindSt_snd _ _ _ hx2
    intro x2d
    apply bindSt_snd _ _ _ hslope
    intro slope2
    apply bindSt_snd _ _ _ hx1
    intro x1e
    apply bindSt_snd _ _ _ hy1
    intro y1a
    rfl
  · rw [if_neg hc]
    apply bindSt_snd _ _ _ hx1
    intro xv
    apply bindSt_snd _ _ _ hy1
    intro ya
    apply bindSt_snd _ _ _ hy2
    intro yb
    by_cases hyy : (ya : ℝ) > (yb : ℝ)
    · rw [if_pos hyy]
      apply bindSt_snd _ _ _ hy1
      intro yc
      apply bindSt_snd _ _ _ hlen
      intro glen
      rfl
    · rw [if_neg hyy]
      apply bindSt_snd _ _ _ hy1
      intro yc
      apply bindSt_snd _ _ _ hlen
      intro glen
      rfl

/-- C9 witness: on a concrete line node carrying all four endpoint
attributes, the raw reads return the parsed values with the node unchanged,
and `along(p)` leaves the node unchanged for every `p`. -/
theorem line_reads_no_mutation_witness :
    x1St (.mk "line" [("x1", "0.000000"), ("x2", "10.000000"),
        ("y1", "0.000000"), ("y2", "0.000000")] "" [])
      = (.ok 0, .mk "line" [("x1", "0.000000"), ("x2", "10.000000"),
        ("y1", "0.000000"), ("y2", "0.000000")] "" []) ∧
    ∀ p, (alongSt p (.mk "line" [("x1", "0.000000"), ("x2", "10.000000"),
        ("y1", "0.000000"), ("y2", "0.000000")] "" [])).2
      = .mk "line" [("x1", "0.000000"), ("x2", "10.000000"),
        ("y1", "0.000000"), ("y2", "0.000000")] "" [] :=
  ⟨(line_reads_no_mutation (.mk "line" [("x1", "0.000000"), ("x2", "10.000000"),
        ("y1", "0.000000"), ("y2", "0.000000")] "" [])
      "0.000000" "10.000000" "0.000000" "0.000000"
      rfl rfl rfl rfl).2.2.2.2.1 0 (by decide),
   (line_reads_no_mutation (.mk "line" [("x1", "0.000000"), ("x2", "10.000000"),
        ("y1", "0.000000"), ("y2", "0.000000")] "" [])
      "0.000000" "10.000000" "0.000000" "0.000000"
      rfl rfl rfl rfl).2.2.2.2.2.2.2.2.2.2.2.2⟩

/-- C9 counterexample: reading `x1()` on a line node with *no* endpoint
attributes throws (models `std::stof("")`) and *mutates* the node:
`attr["x1"]` inserts an empty entry into the attribute map. -/
theorem line_read_missing_inserts :
    (x1St (.mk "line" [] "" [])).1 = .error () ∧
    ((x1St (.mk "line" [] "" [])).2).attr = [("x1", "")] ∧
    (Element.mk "line" [] "" []).attr = [] ∧
    ((x1St (.mk "line" [] "" [])).2).attr ≠ (Element.mk "line" [] "" []).attr := by
  refine ⟨rfl, rfl, rfl, by decide⟩

/-! ## Heap model for `add_child` copy semantics

`Element::children` is a `vector<shared_ptr<Element>>` and
`add_child(T node)` takes its argument *by value* and stores
`make_shared<T>(node)` — a freshly allocated cell holding a copy of the
argument's value — returning `children.back().get()`, a pointer to that
fresh cell.  To express the aliasing content of the claim, heap cells are
explicit: a cell (`HElem`) stores the node's own data with its children as
pointers (cell indices), a heap is the list of allocated cells, and
serialization first resolves pointers into a value tree (`Element`) with a
fuel bound, then applies `to_string_st`. -/

/-- One heap cell: an `Element` object with its `shared_ptr` children as
cell indices. -/
structure HElem where
  tag : String
  attr : List (String × String)
  content : String
  children : List Nat

mutual

/-- Dereference cell `i` into a value tree, following child pointers
(`none` on a dangling pointer or when the fuel is exhausted). -/
def resolve : Nat → List HElem → Nat → Option Element
  | 0, _, _ => none
  | fuel + 1, h, i =>
    match h.get? i with
    | none => none
    | some he =>
      match resolveList fuel h he.children with
      | none => none
      | some cs => some (.mk he.tag he.attr he.content cs)

def resolveList : Nat → List HElem → List Nat → Option (List Element)
  | _, _, [] => some []
  | fuel, h, i :: rest =>
    match resolve fuel h i, resolveList fuel h rest with
    | some e, some es => some (e :: es)
    | _, _ => none

end

/-- Pointer reachability from cell `i` to cell `j` within `fuel` steps. -/
def reachesW : Nat → List HElem → Nat → Nat → Bool
  | 0, _, i, j => i == j
  | fuel + 1, h, i, j =>
    i == j ||
      (match h.get? i with
       | none => false
       | some he => he.children.any fun c => reachesW fuel h c j)

/-- `parent->add_child(*arg)` where `parent` lives in cell `ip` and the
caller's argument object in cell `ia`: allocate a fresh cell holding a copy
of the argument's current value (`make_shared<T>(node)`), append its index
to the parent's children, and return the new heap together with the index
the returned pointer refers to. -/
def addChildPtr (h : List HElem) (ip ia : Nat) : List HElem × Nat :=
  match h.get? ip, h.get? ia with
  | some pe, some ae =>
    ((h ++ [ae]).set ip
      { pe with children := pe.children ++ [h.length] }, h.length)
  | _, _ => (h, 0)

theorem resolveList_set_congr (fuel : Nat) (h : List HElem) (j : Nat)
    (e' : HElem) (l : List Nat)
    (hl : ∀ c ∈ l, resolve fuel h c = resolve fuel (h.set j e') c) :
    resolveList fuel h l = resolveList fuel (h.set j e') l := by
  induction l with
  | nil => simp only [resolveList]
  | cons c rest ih =>
    simp only [resolveList]
    rw [hl c (by simp), ih (fun x hx => hl x (by simp [hx]))]

theorem resolve_set_unreach (fuel : Nat) : ∀ (h : List HElem) (i j : Nat)
    (e' : HElem), reachesW fuel h i j = false →
    resolve fuel h i = resolve fuel (h.set j e') i := by
  induction fuel with
  | zero => intro h i j e' _; simp only [resolve]
  | succ fuel ih =>
    intro h i j e' hr
    rw [reachesW] at hr
    simp only [Bool.or_eq_false_iff] at hr
    obtain ⟨hij, hch⟩ := hr
    have hij' : i ≠ j := by
      intro hcon
      rw [hcon] at hij
      simp at hij
    simp only [resolve]
    rw [List.get?_set_ne e' h (fun hcon => hij' hcon.symm)]
    rcases hgi : h.get? i with _ | he
    · rfl
    · rw [hgi] at hch
      simp only [List.any_eq_false] at hch
      have hres := resolveList_set_congr fuel h j e' he.children
        (fun c hc => ih h c j e' (by simpa using hch c hc))
      show (match resolveList fuel h he.children with
        | none => none
        | some cs => some (Element.mk he.tag he.attr he.content cs)) =
        (match resolveList fuel (h.set j e') he.children with
        | none => none
        | some cs => some (Element.mk he.tag he.attr he.content cs))
      rw [hres]

/-- C10: `add_child` stores a copy.  With the parent at cell `ip` and the
caller's argument object at cell `ia`, `add_child` allocates a fresh cell at
index `h.length` holding the argument's value at call time; the returned
pointer refers to that stored copy inside the parent's children sequence;
and overwriting the caller's original object afterwards (with any value
`e'`) does not change the parent's subsequent serialization, provided the
argument cell is not otherwise reachable from the parent (which `add_child`
itself never makes it, since it only stores copies). -/
theorem add_child_copy_semantics (fuel : Nat) (h : List HElem) (ip ia : Nat)
    (pe ae e' : HElem) (hp : h.get? ip = some pe) (ha : h.get? ia = some ae)
    (hr : reachesW fuel (addChildPtr h ip ia).1 ip ia = false) :
    (addChildPtr h ip ia).2 = h.length ∧
    ((addChildPtr h ip ia).1).get? ((addChildPtr h ip ia).2) = some ae ∧
    ((addChildPtr h ip ia).1).get? ip
      = some { pe with children := pe.children ++ [h.length] } ∧
    (resolve fuel (addChildPtr h ip ia).1 ip).map (fun e => (to_string_st 0 e).1)
      = (resolve fuel (((addChildPtr h ip ia).1).set ia e') ip).map
          (fun e => (to_string_st 0 e).1) := by
  have hip : ip < h.length := by
    by_contra hc
    push_neg at hc
    rw [List.get?_len_le hc] at hp
    exact Option.noConfusion hp
  have hfresh : addChildPtr h ip ia
      = ((h ++ [ae]).set ip { pe with children := pe.children ++ [h.length] },
         h.length) := by
    rw [addChildPtr, hp, ha]
  refine ⟨by rw [hfresh], ?_, ?_, ?_⟩
  · rw [hfresh]
    simp only
    rw [List.get?_set_ne _ _ (Nat.ne_of_lt hip)]
    exact List.get?_concat_length h ae
  · rw [hfresh]
    simp only
    exact List.get?_set_eq_of_lt _ (by simp; omega)
  · exact congrArg (Option.map fun e => (to_string_st 0 e).1)
      (resolve_set_unreach fuel (addChildPtr h ip ia).1 ip ia e' hr)

/-- C10 witness: a two-cell heap (an `svg` parent and a `g` argument);
after `add_child` the new cell index is `2`, and overwriting the argument
cell with a `rect` leaves the parent's serialization unchanged. -/
theorem add_child_copy_semantics_witness :
    (addChildPtr [HElem.mk "svg" [] "" [], HElem.mk "g" [] "" []] 0 1).2 = 2 ∧
    (resolve 3 (addChildPtr [HElem.mk "svg" [] "" [], HElem.mk "g" [] "" []] 0 1).1 0).map
        (fun e => (to_string_st 0 e).1)
      = (resolve 3 ((addChildPtr [HElem.mk "svg" [] "" [],
            HElem.mk "g" [] "" []] 0 1).1.set 1 (HElem.mk "rect" [] "" [])) 0).map
          (fun e => (to_string_st 0 e).1) :=
  ⟨(add_child_copy_semantics 3 [HElem.mk "svg" [] "" [], HElem.mk "g" [] "" []]
      0 1 (HElem.mk "svg" [] "" []) (HElem.mk "g" [] "" [])
      (HElem.mk "rect" [] "" []) rfl rfl (by decide)).1,
   (add_child_copy_semantics 3 [HElem.mk "svg" [] "" [], HElem.mk "g" [] "" []]
      0 1 (HElem.mk "svg" [] "" []) (HElem.mk "g" [] "" [])
      (HElem.mk "rect" [] "" []) rfl rfl (by decide)).2.2.2⟩
